import Mathlib

/-!
Verification development for the MintelliFunds inference server
(src/src/inference_server.cpp, src/src/model_loader.cpp, src/src/main.cpp).

The embedding is shallow: each C++ function of the request path is
translated into an executable Lean definition over `List Char` payloads.
Numeric values are modelled as exact rationals; the conversion done by
std::stof is modelled including both range errors it raises on the
platform this POSIX code targets (glibc/libstdc++): overflow, when the
value rounds beyond the largest finite binary32 value, and underflow,
when a nonzero value rounds to a subnormal or to zero - glibc strtof
sets ERANGE in both cases, so stof throws std::out_of_range, whose
what() message is the string "stof" in libstdc++.  Rounding of
representable-range values to binary32 precision is not modelled: no
claim depends on it.
-/

/-- Decides whether a character is an ASCII digit, the character class
[0-9] used by both regexes in parse_input_json. -/
def isDigitCh (c : Char) : Bool := 48 ≤ c.toNat && c.toNat ≤ 57

/-- Whitespace class of the ECMAScript regex escape used in the
features regex of parse_input_json. -/
def isSpaceCh (c : Char) : Bool :=
  c == ' ' || c == '\t' || c == '\n' || c == '\r' || c == '\x0b' || c == '\x0c'

/-- Maximal run of digits at the head of the input, together with the
rest; this is how the greedy pieces [0-9]* and [0-9]+ of the numeric
token regex consume input. -/
def takeDigits : List Char → List Char × List Char
  | [] => ([], [])
  | c :: rest =>
    if isDigitCh c then
      let p := takeDigits rest
      (c :: p.1, p.2)
    else ([], c :: rest)

/-- Match of the core of the numeric token regex of parse_input_json,
[0-9]*\.?[0-9]+, at the head of the input, under ECMAScript greedy
backtracking semantics: digits, then an optional dot that must be
followed by at least one digit to be consumed together with its digits,
with the bare digit run as the fallback.  Returns the matched text and
the rest, or none when the regex cannot match here. -/
def matchCore (s : List Char) : Option (List Char × List Char) :=
  match takeDigits s with
  | (d1, r1) =>
    if d1.isEmpty then
      match r1 with
      | '.' :: r2 =>
        match takeDigits r2 with
        | (d2, r3) => if d2.isEmpty then none else some ('.' :: d2, r3)
      | _ => none
    else
      match r1 with
      | '.' :: r2 =>
        match takeDigits r2 with
        | (d2, r3) => if d2.isEmpty then some (d1, r1) else some (d1 ++ '.' :: d2, r3)
      | _ => some (d1, r1)

/-- Match of the optional exponent group ([eE][-+]?[0-9]+)? of the
numeric token regex: it consumes an exponent marker, an optional sign
and at least one digit, or consumes nothing at all. -/
def matchExp (s : List Char) : List Char × List Char :=
  match s with
  | [] => ([], [])
  | e :: rest =>
    if e == 'e' || e == 'E' then
      match rest with
      | c :: r2 =>
        if c == '+' || c == '-' then
          match takeDigits r2 with
          | (d, r3) => if d.isEmpty then ([], e :: rest) else (e :: c :: d, r3)
        else
          match takeDigits rest with
          | (d, r3) => if d.isEmpty then ([], e :: rest) else (e :: d, r3)
      | [] => ([], e :: rest)
    else ([], s)

/-- Match of the full numeric token regex [-+]?[0-9]*\.?[0-9]+([eE][-+]?[0-9]+)?
at the head of the input: an optional sign (kept only when the core can
match after it), the core, then the optional exponent group. -/
def matchNumber (s : List Char) : Option (List Char × List Char) :=
  match s with
  | [] => none
  | c :: rest =>
    if c == '+' || c == '-' then
      match matchCore rest with
      | some (m, r) =>
        match matchExp r with
        | (ex, r2) => some (c :: (m ++ ex), r2)
      | none => none
    else
      match matchCore (c :: rest) with
      | some (m, r) =>
        match matchExp r with
        | (ex, r2) => some (m ++ ex, r2)
      | none => none

/-- Fuelled scan mirroring std::sregex_iterator over the numeric token
regex: successive leftmost non-overlapping matches, collected in
left-to-right order.  The fuel only bounds recursion; it is set to the
input length, which suffices since every step strictly shortens the
input. -/
def scanTokensF : Nat → List Char → List (List Char)
  | 0, _ => []
  | _ + 1, [] => []
  | fuel + 1, c :: rest =>
    match matchNumber (c :: rest) with
    | some (t, r) => t :: scanTokensF fuel r
    | none => scanTokensF fuel rest

/-- All numeric tokens of a payload, in order of appearance. -/
def scanTokens (s : List Char) : List (List Char) := scanTokensF s.length s

/-- Literal part of the features regex of parse_input_json:
the quoted field name. -/
def featLit : List Char := "\"features\"".toList

/-- Boolean prefix test on character lists. -/
def isPrefixB : List Char → List Char → Bool
  | [], _ => true
  | _ :: _, [] => false
  | a :: as, b :: bs => a == b && isPrefixB as bs

/-- Greedy whitespace skip, the regex piece between the field name,
the colon and the opening bracket. -/
def dropSpaces : List Char → List Char
  | [] => []
  | c :: rest => if isSpaceCh c then dropSpaces rest else c :: rest

/-- Match of the features regex at the head of the input: the quoted
field name, optional whitespace, a colon, optional whitespace, an
opening bracket, then the capture group, one or more characters none
of which is a closing bracket, followed by the closing bracket.  The
group is greedy but can never cross a closing bracket, so it is exactly
the run up to the first closing bracket, and it must be non-empty.
Returns the capture group. -/
def matchFeaturesAt (s : List Char) : Option (List Char) :=
  if isPrefixB featLit s then
    match dropSpaces (s.drop 10) with
    | ':' :: r2 =>
      match dropSpaces r2 with
      | '[' :: r4 =>
        match r4.dropWhile (fun c => !(c == ']')) with
        | ']' :: _ =>
          if (r4.takeWhile (fun c => !(c == ']'))).isEmpty then none
          else some (r4.takeWhile (fun c => !(c == ']')))
        | _ => none
      | _ => none
    | _ => none
  else none

/-- Leftmost search of the features regex over the whole payload,
mirroring std::regex_search: the match at the earliest starting
position wins; on failure at a position the search moves one character
to the right. -/
def featuresSearch : List Char → Option (List Char)
  | [] => none
  | c :: rest =>
    match matchFeaturesAt (c :: rest) with
    | some g => some g
    | none => featuresSearch rest

/-- Token-level result of parse_input_json: the tokens inside the
features list when the features regex matches somewhere, otherwise the
tokens found anywhere in the payload. -/
def extractedTokens (s : List Char) : List (List Char) :=
  match featuresSearch s with
  | some inner => scanTokens inner
  | none => scanTokens s

/-- Value of a digit string. -/
def digitsToNat (ds : List Char) : Nat := ds.foldl (fun a c => 10 * a + (c.toNat - 48)) 0

/-- Power of ten as an integer, routed through natural-number
exponentiation. -/
def pow10 (n : Nat) : Int := Int.ofNat (10 ^ n)

/-- Exact rational value of a numeric token, the mathematical value
std::stof converts (stof itself then rounds the in-range values to
binary32; that rounding is not modelled, no claim depends on it).  The
token shape is the one produced by the numeric token regex: optional
sign, digits with an optional fractional part, optional exponent
marker with optionally signed digits.  The value is
sign * (intpart.fracpart) * 10 ^ exponent, assembled here over integers
as (sign * (intdigits * 10 ^ k + fracdigits)) * 10 ^ (exponent - k)
where k is the number of fractional digits. -/
def tokenVal (t : List Char) : ℚ :=
  let sres : Bool × List Char :=
    match t with
    | '-' :: r => (true, r)
    | '+' :: r => (false, r)
    | r => (false, r)
  let mant := sres.2.takeWhile (fun c => !(c == 'e' || c == 'E'))
  let erest := sres.2.dropWhile (fun c => !(c == 'e' || c == 'E'))
  let expv : Int :=
    match erest with
    | _ :: '-' :: ds => -(digitsToNat ds : Int)
    | _ :: '+' :: ds => (digitsToNat ds : Int)
    | _ :: ds => (digitsToNat ds : Int)
    | [] => 0
  let ip := mant.takeWhile (fun c => !(c == '.'))
  let fpart := mant.dropWhile (fun c => !(c == '.'))
  let fr : List Char := match fpart with | _ :: ds => ds | [] => []
  let k := fr.length
  let mantNat : Nat := digitsToNat ip * 10 ^ k + digitsToNat fr
  let mantInt : Int := if sres.1 then -(mantNat : Int) else (mantNat : Int)
  let m : Int := expv - (k : Int)
  if 0 ≤ m then mkRat (mantInt * pow10 m.toNat) 1
  else mkRat mantInt (10 ^ (-m).toNat)

/-- Absolute value on rationals, written executably. -/
def ratAbs (q : ℚ) : ℚ := if q < 0 then -q else q

/-- Smallest magnitude at which round-to-nearest-even binary32
conversion overflows to infinity, making strtof report ERANGE and
std::stof throw std::out_of_range; it equals 2 ^ 128 - 2 ^ 103. -/
def floatOverflowBound : ℚ := mkRat (Int.ofNat (2 ^ 128 - 2 ^ 103)) 1

/-- Largest magnitude at which round-to-nearest-even binary32
conversion still underflows below the smallest normal number: every
nonzero value of magnitude under 2 ^ (-126) - 2 ^ (-150) rounds to a
subnormal or to zero, glibc strtof then reports ERANGE and std::stof
throws std::out_of_range; at or above this bound the result is normal.
The bound equals (2 ^ 24 - 1) / 2 ^ 150. -/
def floatUnderflowBound : ℚ := mkRat (Int.ofNat (2 ^ 24 - 1)) (2 ^ 150)

/-- Model of std::stof on a token matched by the numeric token regex:
the exact rational value, or the out-of-range error (message "stof",
the what() of the exception libstdc++ throws) when the value overflows
binary32 or, being nonzero, underflows it - both make glibc strtof set
ERANGE. -/
def stofModel (t : List Char) : Except String ℚ :=
  if floatOverflowBound ≤ ratAbs (tokenVal t) then Except.error "stof"
  else if 0 < ratAbs (tokenVal t) ∧ ratAbs (tokenVal t) < floatUnderflowBound then
    Except.error "stof"
  else Except.ok (tokenVal t)

/-- Conversion loop of parse_input_json: each token is converted by
stof and pushed in order; the first failing conversion aborts the whole
parse with its exception. -/
def stofAll : List (List Char) → Except String (List ℚ)
  | [] => Except.ok []
  | t :: rest =>
    match stofModel t with
    | Except.error e => Except.error e
    | Except.ok v =>
      match stofAll rest with
      | Except.error e => Except.error e
      | Except.ok vs => Except.ok (v :: vs)

/-- Model of InferenceServer::parse_input_json: extract the tokens
(features list when the features regex matches, whole payload
otherwise) and convert each with stof, in order.  The error case models
the exception a conversion can throw. -/
def parse_input_json (s : List Char) : Except String (List ℚ) :=
  stofAll (extractedTokens s)

example : parse_input_json ("\x7b\"features\": [1.0,2.0]\x7d".toList) = Except.ok [1, 2] := by rfl
example : parse_input_json ("\x7b\"features\": [], \"id\": 7\x7d".toList) = Except.ok [7] := by rfl
example : parse_input_json ("\x7b\x7d".toList) = Except.ok [] := by rfl
example : parse_input_json ("[1e39]".toList) = Except.error "stof" := by rfl

/-- Decimal digits of a number below one million, left-padded with
zeros to width six, the fractional part printed by the fixed
six-digit formatting of outputs_to_json. -/
def zeroPad6 (m : Nat) : String :=
  let s := toString m
  (List.replicate (6 - s.length) '0').asString ++ s

/-- Fixed-point rendering with six fractional digits, the effect of
std::fixed with setprecision(6) on the stream of outputs_to_json,
modelled at exact rational precision: the value is rounded to the
nearest multiple of one millionth (ties upward; the stream rounds the
nearest-representable float, a distinction no claim exercises) and
printed as intpart.fracpart with exactly six fractional digits. -/
def formatFixed6 (q : ℚ) : String :=
  let n : Int := Int.fdiv (2 * q.num * 1000000 + q.den) (2 * (q.den : Int))
  let a := n.natAbs
  (if n < 0 then "-" else "") ++ toString (a / 1000000) ++ "." ++ zeroPad6 (a % 1000000)

/-- Inner loop of outputs_to_json over one output tensor row: values
separated by commas, a comma before every element except the first. -/
def valsAux : Bool → List ℚ → String
  | _, [] => ""
  | first, v :: rest => (if first then "" else ",") ++ formatFixed6 v ++ valsAux false rest

/-- Outer loop of outputs_to_json over the output dictionary entries,
with the first-entry flag controlling the separating commas exactly as
the bool first in the source. -/
def outputs_to_json_aux : Bool → List (String × List ℚ) → String
  | _, [] => ""
  | first, kv :: rest =>
    (if first then "" else ",") ++ "\"" ++ kv.1 ++ "\":[" ++ valsAux true kv.2 ++ "]"
      ++ outputs_to_json_aux false rest

/-- Model of InferenceServer::outputs_to_json: the output dictionary,
in the order received, rendered as a JSON object whose values are
bracketed lists of fixed six-digit numbers.  An output tensor is
modelled by its row zero, the row the accessor reads. -/
def outputs_to_json (outputs : List (String × List ℚ)) : String :=
  "\x7b" ++ outputs_to_json_aux true outputs ++ "\x7d"

/-- Comma-separated join of rendered pieces. -/
def joinComma : List String → String
  | [] => ""
  | [a] => a
  | a :: rest => a ++ "," ++ joinComma rest

/-- Modelled from the spec: the ResponseEncoder contract of section 4.4,
an object whose keys are the output names and whose values are
bracketed, comma-separated lists of the corresponding numeric
sequence, each number rendered with fixed six-digit fractional
precision.  Stated independently of the source loop, for comparison
with outputs_to_json. -/
def encodeSpec (outputs : List (String × List ℚ)) : String :=
  "\x7b" ++
    joinComma (outputs.map (fun kv =>
      "\"" ++ kv.1 ++ "\":[" ++ joinComma (kv.2.map formatFixed6) ++ "]")) ++
  "\x7d"

/-- External prediction engine as seen by the handler: evaluation of a
feature vector into named output rows, or an engine failure message
(the what() of the exception ModelLoader::predict lets escape). -/
abbrev EngineFun := List ℚ → Except String (List (String × List ℚ))

/-- Model of InferenceServer::process_inference: the decoded vector
must have exactly the width reported by get_input_size, otherwise the
size-mismatch exception is thrown (modelled as the error value) and
the engine is not consulted; on matching width the engine runs and its
outputs are encoded. -/
def process_inference (expected : Nat) (engine : EngineFun) (input : List ℚ) :
    Except String String :=
  if input.length ≠ expected then
    Except.error ("Input size mismatch. Expected " ++ toString expected
      ++ " but got " ++ toString input.length)
  else
    match engine input with
    | Except.ok outs => Except.ok (outputs_to_json outs)
    | Except.error e => Except.error e

/-- Error body built in the catch block of handle_client around the
what() message of the caught exception. -/
def errorBody (msg : String) : String := "\x7b\"error\": \"" ++ msg ++ "\"\x7d"

/-- Success response assembled by handle_client: status line, content
type, content length, the permissive cross-origin header, a blank
line, then the body. -/
def http_ok (body : String) : String :=
  "HTTP/1.1 200 OK\r\n"
    ++ "Content-Type: application/json\r\n"
    ++ ("Content-Length: " ++ toString body.length ++ "\r\n")
    ++ "Access-Control-Allow-Origin: *\r\n"
    ++ "\r\n"
    ++ body

/-- Error response assembled in the catch block of handle_client:
status line, content type, content length, a blank line, then the
body.  The source appends no cross-origin header on this path. -/
def http_err (body : String) : String :=
  "HTTP/1.1 500 Internal Server Error\r\n"
    ++ "Content-Type: application/json\r\n"
    ++ ("Content-Length: " ++ toString body.length ++ "\r\n")
    ++ "\r\n"
    ++ body

/-- Search for the first blank line of an HTTP framing, the
request.find of handle_client; returns the characters after the first
occurrence of CR LF CR LF, or none. -/
def afterBlankLine : List Char → Option (List Char)
  | [] => none
  | c :: rest =>
    if isPrefixB ['\r', '\n', '\r', '\n'] (c :: rest) then some ((c :: rest).drop 4)
    else afterBlankLine rest

/-- Body extraction of handle_client: the part after the first blank
line when the request is HTTP-framed, the whole request otherwise. -/
def extract_body (request : List Char) : List Char :=
  match afterBlankLine request with
  | some b => b
  | none => request

/-- Outcome of the try block of handle_client on a payload: the JSON
success body, or the message of the exception thrown by parsing or by
process_inference. -/
def handle_response (expected : Nat) (engine : EngineFun) (payload : List Char) :
    Except String String :=
  match parse_input_json payload with
  | Except.error msg => Except.error msg
  | Except.ok input => process_inference expected engine input

/-- Body of the response handle_client writes for a payload: the
success body, or the error body wrapping the exception message. -/
def response_body (expected : Nat) (engine : EngineFun) (payload : List Char) : String :=
  match handle_response expected engine payload with
  | Except.ok r => r
  | Except.error msg => errorBody msg

/-- Model of InferenceServer::handle_client: nothing is sent when the
read returned no bytes; otherwise the body is extracted, decoded and
processed, and either the 200 response with the JSON body or the 500
response with the error body is written back. -/
def handle_client (expected : Nat) (engine : EngineFun) (request : List Char) :
    Option String :=
  if request.isEmpty then none
  else
    match handle_response expected engine (extract_body request) with
    | Except.ok r => some (http_ok r)
    | Except.error msg => some (http_err (errorBody msg))

/-- Boolean substring test on character lists. -/
def hasSubstrB (pat : List Char) : List Char → Bool
  | [] => isPrefixB pat []
  | c :: rest => isPrefixB pat (c :: rest) || hasSubstrB pat rest

/-- Engine that returns no outputs; stands in where the engine is
irrelevant. -/
def engZero : EngineFun := fun _ => Except.ok []

/-- Engine of concrete scenario 1: a single output named score holding
the value 0.42. -/
def engScore : EngineFun := fun _ => Except.ok [("score", [mkRat 21 50])]

example : outputs_to_json [("score", [mkRat 21 50])] = "\x7b\"score\":[0.420000]\x7d" := by rfl
example :
    handle_client 3 engScore ("POST / HTTP/1.1\r\nHost: x\r\n\r\n\x7b\"features\": [1.0,2.0,3.0]\x7d".toList)
      = some (http_ok "\x7b\"score\":[0.420000]\x7d") := by rfl
example :
    response_body 3 engZero ("\x7b\"features\": [1.0,2.0]\x7d".toList)
      = "\x7b\"error\": \"Input size mismatch. Expected 3 but got 2\"\x7d" := by rfl

/-- State of a ModelLoader object: the stored path, the loaded flag and
the expected input width, the three data members of the class. -/
structure ModelLoader where
  model_path : String
  loaded : Bool
  input_size : Nat
  deriving DecidableEq

/-- Model of the ModelLoader constructor: the path is stored, the
loaded flag starts false and the input size is the literal 16 of the
initializer list. -/
def ModelLoader.construct (path : String) : ModelLoader :=
  { model_path := path, loaded := false, input_size := 16 }

/-- Model of ModelLoader::get_input_size, the inline getter. -/
def get_input_size (m : ModelLoader) : Nat := m.input_size

/-- Operations a ModelLoader object undergoes after construction: a
load attempt whose success is decided by the external torch runtime,
or a predict call.  Neither member writes input_size_. -/
inductive MLOp where
  | load (success : Bool)
  | predict
  deriving DecidableEq

/-- Model of the state change of one ModelLoader member call: load sets
the loaded flag to its outcome; predict reads but never writes the
data members. -/
def ModelLoader.step (m : ModelLoader) : MLOp → ModelLoader
  | MLOp.load ok => if ok then { m with loaded := true } else { m with loaded := false }
  | MLOp.predict => m

/-- Phase of the accept loop of InferenceServer::run: about to test the
while condition, blocked in accept, or fallen out of the loop. -/
inductive LoopPhase where
  | atCheck
  | inAccept
  | exited
  deriving DecidableEq

/-- State of the accept loop: the atomic running flag, the position in
the loop, and how many accepted connections have been handed to a
detached handler thread. -/
structure LoopState where
  running : Bool
  phase : LoopPhase
  dispatched : Nat
  deriving DecidableEq

/-- Events the loop reacts to, from either execution context: the stop
request writing the flag, the loop reaching the while condition, and
accept returning with or without a connection. -/
inductive LoopEvent where
  | stopReq
  | proceed
  | acceptOk
  | acceptFail
  deriving DecidableEq

/-- Small-step semantics of the accept loop of run and of stop.  stop
only writes the flag, from any context.  At the while condition the
loop either enters accept or exits, by the flag.  When accept returns a
connection the body always dispatches a handler thread and returns to
the condition: the flag is not consulted between the return of accept
and the dispatch.  A failed accept just returns to the condition. -/
def loopStep (s : LoopState) : LoopEvent → LoopState
  | LoopEvent.stopReq => { s with running := false }
  | LoopEvent.proceed =>
    match s.phase with
    | LoopPhase.atCheck =>
      if s.running then { s with phase := LoopPhase.inAccept }
      else { s with phase := LoopPhase.exited }
    | _ => s
  | LoopEvent.acceptOk =>
    match s.phase with
    | LoopPhase.inAccept =>
      { s with phase := LoopPhase.atCheck, dispatched := s.dispatched + 1 }
    | _ => s
  | LoopEvent.acceptFail =>
    match s.phase with
    | LoopPhase.inAccept => { s with phase := LoopPhase.atCheck }
    | _ => s

/-- Run of the accept loop over a sequence of events. -/
def runLoop (s : LoopState) (evs : List LoopEvent) : LoopState := evs.foldl loopStep s

/-- State at the top of run, after running_ = true, before the first
condition test, with no connection dispatched yet. -/
def loopInit : LoopState :=
  { running := true, phase := LoopPhase.atCheck, dispatched := 0 }

/-- How many dispatches can still happen once the flag is down: one if
the loop is inside accept, none otherwise. -/
def dispatchSlack (s : LoopState) : Nat :=
  if s.phase = LoopPhase.inAccept then 1 else 0

/-- Early-return outcome of InferenceServer::run before and at the
accept loop. -/
inductive RunOutcome where
  | socketError
  | bindError
  | listenError
  | loopEntered
  deriving DecidableEq

/-- Outcome of run together with the lines it printed to stderr. -/
structure RunResult where
  outcome : RunOutcome
  errLog : List String
  deriving DecidableEq

/-- Model of the startup part of InferenceServer::run: socket, bind and
listen in order; each failure prints one stderr line and returns from
run, reaching the accept loop only when all three succeed. -/
def runStartup (socket_ok bind_ok listen_ok : Bool) : RunResult :=
  if !socket_ok then { outcome := RunOutcome.socketError, errLog := ["Error creating socket"] }
  else if !bind_ok then { outcome := RunOutcome.bindError, errLog := ["Error binding socket"] }
  else if !listen_ok then { outcome := RunOutcome.listenError, errLog := ["Error listening on socket"] }
  else { outcome := RunOutcome.loopEntered, errLog := [] }

/-- Model of the return value of main: 1 for an unknown argument, an
invalid port, or a failed initialize; otherwise run() is executed for
its effects and main returns 0 - no outcome of run feeds back into the
return value, because run returns void and throws nothing. -/
def mainExitCode (args_ok port_ok init_ok socket_ok bind_ok listen_ok : Bool) : Nat :=
  if !args_ok then 1
  else if !port_ok then 1
  else if !init_ok then 1
  else
    let _ := runStartup socket_ok bind_ok listen_ok
    0

example : get_input_size (ModelLoader.construct "financial_model.pt") = 16 := by rfl
example : (runStartup true false true).outcome = RunOutcome.bindError := by rfl
example : mainExitCode true true true true false true = 0 := by rfl
example :
    (runLoop loopInit [LoopEvent.proceed, LoopEvent.stopReq, LoopEvent.acceptOk]).dispatched
      = 1 := by rfl

theorem takeDigits_append (s : List Char) : (takeDigits s).1 ++ (takeDigits s).2 = s := by
  induction s with
  | nil => rfl
  | cons c rest ih =>
    cases hc : isDigitCh c <;> simp [takeDigits, hc, ih]

theorem matchCore_append {s m r : List Char} (h : matchCore s = some (m, r)) :
    m ++ r = s ∧ m ≠ [] := by
  have hs := takeDigits_append s
  unfold matchCore at h
  rcases hp : takeDigits s with ⟨d1, r1⟩
  rw [hp] at h hs
  simp only at hs
  cases d1 with
  | nil =>
    simp only [List.isEmpty_nil, if_true] at h
    split at h
    next r2 =>
      rcases hq : takeDigits r2 with ⟨d2, r3⟩
      have h2 := takeDigits_append r2
      rw [hq] at h h2
      simp only at h h2
      split at h
      · simp at h
      · cases h
        refine ⟨?_, by simp⟩
        rw [← hs, ← h2]
        simp
    next => simp at h
  | cons a d1t =>
    simp only [List.isEmpty_cons, Bool.false_eq_true, if_false] at h
    split at h
    next r2 =>
      rcases hq : takeDigits r2 with ⟨d2, r3⟩
      have h2 := takeDigits_append r2
      rw [hq] at h h2
      simp only at h h2
      split at h
      · cases h
        exact ⟨hs, by simp⟩
      · cases h
        refine ⟨?_, by simp⟩
        rw [← hs, ← h2]
        simp
    next =>
      cases h
      exact ⟨hs, by simp⟩

theorem matchExp_append (s : List Char) : (matchExp s).1 ++ (matchExp s).2 = s := by
  unfold matchExp
  cases s with
  | nil => rfl
  | cons e rest =>
    dsimp only
    by_cases he : (e == 'e' || e == 'E') = true
    · rw [if_pos he]
      cases rest with
      | nil => rfl
      | cons c r2 =>
        dsimp only
        by_cases hc : (c == '+' || c == '-') = true
        · rw [if_pos hc]
          rcases hq : takeDigits r2 with ⟨d, r3⟩
          have h2 := takeDigits_append r2
          rw [hq] at h2
          simp only at h2
          cases d with
          | nil => simp
          | cons x xs =>
            simp only [List.isEmpty_cons, Bool.false_eq_true, if_false]
            rw [← h2]
            simp
        · rw [if_neg hc]
          rcases hq : takeDigits (c :: r2) with ⟨d, r3⟩
          have h2 := takeDigits_append (c :: r2)
          rw [hq] at h2
          simp only at h2
          cases d with
          | nil => simp
          | cons x xs =>
            simp only [List.isEmpty_cons, Bool.false_eq_true, if_false]
            rw [← h2]
            simp
    · rw [if_neg he]
      simp

theorem matchNumber_append {s t r : List Char} (h : matchNumber s = some (t, r)) :
    t ++ r = s ∧ t ≠ [] := by
  unfold matchNumber at h
  cases s with
  | nil => simp at h
  | cons c rest =>
    dsimp only at h
    by_cases hc : (c == '+' || c == '-') = true
    · rw [if_pos hc] at h
      cases hm : matchCore rest with
      | none => rw [hm] at h; simp at h
      | some p =>
        rcases p with ⟨m, r0⟩
        rw [hm] at h
        dsimp only at h
        have hca := matchCore_append hm
        have hea := matchExp_append r0
        rcases hq : matchExp r0 with ⟨ex, r2⟩
        rw [hq] at h hea
        simp only at h hea
        cases h
        refine ⟨?_, by simp⟩
        rw [← hca.1, ← hea]
        simp
    · rw [if_neg hc] at h
      cases hm : matchCore (c :: rest) with
      | none => rw [hm] at h; simp at h
      | some p =>
        rcases p with ⟨m, r0⟩
        rw [hm] at h
        dsimp only at h
        have hca := matchCore_append hm
        have hea := matchExp_append r0
        rcases hq : matchExp r0 with ⟨ex, r2⟩
        rw [hq] at h hea
        simp only at h hea
        cases h
        constructor
        · rw [← hca.1, ← hea]
          simp
        · intro hemp
          rcases List.append_eq_nil.mp hemp with ⟨h1, _⟩
          exact hca.2 h1

theorem matchNumber_rest_lt {s t r : List Char} (h : matchNumber s = some (t, r)) :
    r.length < s.length := by
  rcases matchNumber_append h with ⟨hap, hne⟩
  rw [← hap]
  cases t with
  | nil => exact absurd rfl hne
  | cons a ts =>
    simp only [List.cons_append, List.length_cons, List.length_append]
    omega

theorem scanTokensF_congr : ∀ (f1 f2 : Nat) (s : List Char),
    s.length ≤ f1 → s.length ≤ f2 → scanTokensF f1 s = scanTokensF f2 s := by
  intro f1
  induction f1 with
  | zero =>
    intro f2 s h1 _
    have : s = [] := List.length_eq_zero.mp (Nat.le_zero.mp h1)
    subst this
    cases f2 <;> rfl
  | succ f1 ih =>
    intro f2 s h1 h2
    cases s with
    | nil => cases f2 <;> rfl
    | cons c rest =>
      cases f2 with
      | zero => simp at h2
      | succ f2 =>
        simp only [scanTokensF]
        cases hm : matchNumber (c :: rest) with
        | some p =>
          rcases p with ⟨t, r⟩
          dsimp only
          have hl := matchNumber_rest_lt hm
          simp only [List.length_cons] at h1 h2 hl
          rw [ih f2 r (by omega) (by omega)]
        | none =>
          dsimp only
          simp only [List.length_cons] at h1 h2
          exact ih f2 rest (by omega) (by omega)

theorem scanTokens_cons_match {c : Char} {rest t r : List Char}
    (hm : matchNumber (c :: rest) = some (t, r)) :
    scanTokens (c :: rest) = t :: scanTokens r := by
  have hl := matchNumber_rest_lt hm
  simp only [List.length_cons] at hl
  unfold scanTokens
  simp only [List.length_cons, scanTokensF, hm]
  rw [scanTokensF_congr rest.length r.length r (by omega) (by omega)]

theorem scanTokens_cons_none {c : Char} {rest : List Char}
    (hm : matchNumber (c :: rest) = none) :
    scanTokens (c :: rest) = scanTokens rest := by
  unfold scanTokens
  simp only [List.length_cons, scanTokensF, hm]

/-- Tokens ts occur inside s, disjointly and in the given order: s is a
gap, the first token, a gap, the second token, and so on. -/
inductive InOrder : List Char → List (List Char) → Prop
  | nil (g : List Char) : InOrder g []
  | cons (g t rest : List Char) (ts : List (List Char)) :
      InOrder rest ts → InOrder (g ++ t ++ rest) (t :: ts)

theorem InOrder.gap {c : Char} {s : List Char} {ts : List (List Char)}
    (h : InOrder s ts) : InOrder (c :: s) ts := by
  cases h with
  | nil => exact InOrder.nil (c :: s)
  | cons g t rest ts h =>
    have he : (c :: g) ++ t ++ rest = c :: (g ++ t ++ rest) := by simp
    rw [← he]
    exact InOrder.cons (c :: g) t rest ts h

theorem scanTokens_inOrder_n : ∀ (n : Nat) (s : List Char), s.length ≤ n →
    InOrder s (scanTokens s) := by
  intro n
  induction n with
  | zero =>
    intro s h
    have : s = [] := List.length_eq_zero.mp (Nat.le_zero.mp h)
    subst this
    exact InOrder.nil []
  | succ n ih =>
    intro s h
    cases s with
    | nil => exact InOrder.nil []
    | cons c rest =>
      cases hm : matchNumber (c :: rest) with
      | some p =>
        rcases p with ⟨t, r⟩
        rw [scanTokens_cons_match hm]
        have hl := matchNumber_rest_lt hm
        simp only [List.length_cons] at h hl
        have hr := ih r (by omega)
        have hap := (matchNumber_append hm).1
        have he : ([] : List Char) ++ t ++ r = c :: rest := by simpa using hap
        rw [← he]
        exact InOrder.cons [] t r _ hr
      | none =>
        rw [scanTokens_cons_none hm]
        simp only [List.length_cons] at h
        exact InOrder.gap (ih rest (by omega))

theorem scanTokens_inOrder (s : List Char) : InOrder s (scanTokens s) :=
  scanTokens_inOrder_n s.length s (Nat.le_refl _)

theorem scanTokens_matched_n : ∀ (n : Nat) (s : List Char), s.length ≤ n →
    ∀ t ∈ scanTokens s, ∃ u, matchNumber (t ++ u) = some (t, u) := by
  intro n
  induction n with
  | zero =>
    intro s h
    have : s = [] := List.length_eq_zero.mp (Nat.le_zero.mp h)
    subst this
    intro t ht
    simp [scanTokens, scanTokensF] at ht
  | succ n ih =>
    intro s h
    cases s with
    | nil =>
      intro t ht
      simp [scanTokens, scanTokensF] at ht
    | cons c rest =>
      cases hm : matchNumber (c :: rest) with
      | some p =>
        rcases p with ⟨t0, r⟩
        rw [scanTokens_cons_match hm]
        have hl := matchNumber_rest_lt hm
        simp only [List.length_cons] at h hl
        intro t ht
        rcases List.mem_cons.mp ht with he | hmem
        · subst he
          refine ⟨r, ?_⟩
          rw [(matchNumber_append hm).1]
          exact hm
        · exact ih r (by omega) t hmem
      | none =>
        rw [scanTokens_cons_none hm]
        simp only [List.length_cons] at h
        exact ih rest (by omega)

theorem scanTokens_matched {s : List Char} :
    ∀ t ∈ scanTokens s, ∃ u, matchNumber (t ++ u) = some (t, u) :=
  scanTokens_matched_n s.length s (Nat.le_refl _)

theorem takeDigits_noDigit {s : List Char} (h : ∀ c ∈ s, isDigitCh c = false) :
    takeDigits s = ([], s) := by
  cases s with
  | nil => rfl
  | cons c rest => simp [takeDigits, h c (by simp)]

theorem matchCore_noDigit {s : List Char} (h : ∀ c ∈ s, isDigitCh c = false) :
    matchCore s = none := by
  unfold matchCore
  rw [takeDigits_noDigit h]
  dsimp only
  simp only [List.isEmpty_nil, if_true]
  split
  next r2 =>
    have h2 : ∀ c ∈ r2, isDigitCh c = false := by
      intro c hc
      exact h c (by simp [hc])
    rw [takeDigits_noDigit h2]
    simp
  next => rfl

theorem matchNumber_noDigit {s : List Char} (h : ∀ c ∈ s, isDigitCh c = false) :
    matchNumber s = none := by
  unfold matchNumber
  cases s with
  | nil => rfl
  | cons c rest =>
    dsimp only
    by_cases hc : (c == '+' || c == '-') = true
    · rw [if_pos hc, matchCore_noDigit (fun x hx => h x (by simp [hx]))]
    · rw [if_neg hc, matchCore_noDigit h]

theorem matchCore_digit {c : Char} {rest : List Char} (hc : isDigitCh c = true) :
    ∃ m r, matchCore (c :: rest) = some (m, r) := by
  unfold matchCore
  have ht : takeDigits (c :: rest) = (c :: (takeDigits rest).1, (takeDigits rest).2) := by
    simp [takeDigits, hc]
  rw [ht]
  dsimp only
  simp only [List.isEmpty_cons, Bool.false_eq_true, if_false]
  split
  next r2 heq =>
    rcases hq : takeDigits r2 with ⟨d2, r3⟩
    dsimp only
    by_cases hd : d2.isEmpty = true
    · rw [if_pos hd]
      exact ⟨_, _, rfl⟩
    · rw [if_neg hd]
      exact ⟨_, _, rfl⟩
  next => exact ⟨_, _, rfl⟩

theorem matchNumber_digit {c : Char} {rest : List Char} (hc : isDigitCh c = true) :
    ∃ t r, matchNumber (c :: rest) = some (t, r) := by
  have hsign : (c == '+' || c == '-') = false := by
    cases h1 : c == '+' with
    | true =>
      have : c = '+' := eq_of_beq h1
      subst this
      exact absurd hc (by decide)
    | false =>
      cases h2 : c == '-' with
      | true =>
        have : c = '-' := eq_of_beq h2
        subst this
        exact absurd hc (by decide)
      | false => simp [h1, h2]
  unfold matchNumber
  dsimp only
  simp only [hsign, Bool.false_eq_true, if_false]
  rcases @matchCore_digit c rest hc with ⟨m, r, hm⟩
  rw [hm]
  dsimp only
  exact ⟨_, _, rfl⟩

theorem scanTokens_nil_of_noDigit_n : ∀ (n : Nat) (s : List Char), s.length ≤ n →
    (∀ c ∈ s, isDigitCh c = false) → scanTokens s = [] := by
  intro n
  induction n with
  | zero =>
    intro s hl _
    have : s = [] := List.length_eq_zero.mp (Nat.le_zero.mp hl)
    subst this
    rfl
  | succ n ih =>
    intro s hl h
    cases s with
    | nil => rfl
    | cons c rest =>
      rw [scanTokens_cons_none (matchNumber_noDigit h)]
      simp only [List.length_cons] at hl
      exact ih rest (by omega) (fun x hx => h x (by simp [hx]))

theorem scanTokens_nil_iff (s : List Char) :
    scanTokens s = [] ↔ ∀ c ∈ s, isDigitCh c = false := by
  constructor
  · intro h
    induction s with
    | nil => simp
    | cons c rest ih =>
      have hcd : isDigitCh c = false := by
        cases hd : isDigitCh c with
        | true =>
          rcases @matchNumber_digit c rest hd with ⟨t, r, hm⟩
          rw [scanTokens_cons_match hm] at h
          simp at h
        | false => rfl
      have hrest : scanTokens rest = [] := by
        cases hm : matchNumber (c :: rest) with
        | some p =>
          rcases p with ⟨t, r⟩
          rw [scanTokens_cons_match hm] at h
          simp at h
        | none =>
          rw [scanTokens_cons_none hm] at h
          exact h
      intro x hx
      rcases List.mem_cons.mp hx with he | hmem
      · subst he; exact hcd
      · exact ih hrest x hmem
  · exact fun h => scanTokens_nil_of_noDigit_n s.length s (Nat.le_refl _) h

theorem isPrefixB_drop {p s : List Char} (h : isPrefixB p s = true) :
    s = p ++ s.drop p.length := by
  induction p generalizing s with
  | nil => simp
  | cons a as ih =>
    cases s with
    | nil => simp [isPrefixB] at h
    | cons b bs =>
      simp only [isPrefixB, Bool.and_eq_true, beq_iff_eq] at h
      rcases h with ⟨hab, hpre⟩
      subst hab
      simp only [List.cons_append, List.length_cons, List.drop_succ_cons]
      rw [← ih hpre]

theorem dropSpaces_decomp (s : List Char) : ∃ ws, s = ws ++ dropSpaces s := by
  induction s with
  | nil => exact ⟨[], rfl⟩
  | cons c rest ih =>
    by_cases hc : isSpaceCh c = true
    · rcases ih with ⟨ws, hw⟩
      refine ⟨c :: ws, ?_⟩
      have hd : dropSpaces (c :: rest) = dropSpaces rest := by simp [dropSpaces, hc]
      rw [hd, List.cons_append, ← hw]
    · refine ⟨[], ?_⟩
      have hd : dropSpaces (c :: rest) = c :: rest := by simp [dropSpaces, hc]
      rw [hd, List.nil_append]

theorem matchFeaturesAt_decomp {s g : List Char} (h : matchFeaturesAt s = some g) :
    ∃ p q, s = p ++ g ++ q := by
  unfold matchFeaturesAt at h
  by_cases hpre : isPrefixB featLit s = true
  · rw [if_pos hpre] at h
    have hs0 : s = featLit ++ s.drop 10 := isPrefixB_drop hpre
    split at h
    next r2 heq1 =>
      split at h
      next r4 heq2 =>
        split at h
        next rest5 heq3 =>
          split at h
          · simp at h
          · cases h
            rcases dropSpaces_decomp (s.drop 10) with ⟨ws1, hw1⟩
            rcases dropSpaces_decomp r2 with ⟨ws2, hw2⟩
            rw [heq1] at hw1
            rw [heq2] at hw2
            have hr4 := List.takeWhile_append_dropWhile (fun c => !(c == ']')) r4
            rw [heq3] at hr4
            refine ⟨featLit ++ ws1 ++ ':' :: ws2 ++ ['['], ']' :: rest5, ?_⟩
            conv_rhs => rw [List.append_assoc, hr4]
            rw [hs0, hw1, hw2]
            simp
        next => simp at h
      next => simp at h
    next => simp at h
  · rw [if_neg hpre] at h
    simp at h

theorem featuresSearch_decomp {s g : List Char} (h : featuresSearch s = some g) :
    ∃ p q, s = p ++ g ++ q := by
  induction s with
  | nil => simp [featuresSearch] at h
  | cons c rest ih =>
    unfold featuresSearch at h
    cases hm : matchFeaturesAt (c :: rest) with
    | some g0 =>
      rw [hm] at h
      dsimp only at h
      cases h
      exact matchFeaturesAt_decomp hm
    | none =>
      rw [hm] at h
      dsimp only at h
      rcases ih h with ⟨p, q, hpq⟩
      exact ⟨c :: p, q, by simp [hpq]⟩

theorem stofAll_cons (t : List Char) (rest : List (List Char)) :
    stofAll (t :: rest) =
      match stofModel t with
      | Except.error e => Except.error e
      | Except.ok v =>
        match stofAll rest with
        | Except.error e => Except.error e
        | Except.ok vs => Except.ok (v :: vs) := rfl

theorem stofAll_ok_of_bounded {ts : List (List Char)}
    (h : ∀ t ∈ ts, ratAbs (tokenVal t) < floatOverflowBound ∧
        (tokenVal t = 0 ∨ floatUnderflowBound ≤ ratAbs (tokenVal t))) :
    stofAll ts = Except.ok (ts.map tokenVal) := by
  induction ts with
  | nil => rfl
  | cons t rest ih =>
    have hcond := h t (by simp)
    have hB : ¬(0 < ratAbs (tokenVal t) ∧ ratAbs (tokenVal t) < floatUnderflowBound) := by
      rcases hcond.2 with hz | hge
      · rintro ⟨hpos, _⟩
        rw [hz] at hpos
        exact absurd hpos (by decide)
      · rintro ⟨_, hlt⟩
        exact absurd hlt (not_lt.mpr hge)
    have hm : stofModel t = Except.ok (tokenVal t) := by
      unfold stofModel
      rw [if_neg (not_le.mpr hcond.1), if_neg hB]
    rw [stofAll_cons, hm]
    dsimp only
    rw [ih (fun x hx => h x (by simp [hx]))]
    rfl

theorem stofAll_ok_val {ts : List (List Char)} {vs : List ℚ}
    (h : stofAll ts = Except.ok vs) : vs = ts.map tokenVal := by
  induction ts generalizing vs with
  | nil =>
    cases h
    rfl
  | cons t rest ih =>
    rw [stofAll_cons] at h
    cases hm : stofModel t with
    | error e => rw [hm] at h; simp at h
    | ok v =>
      rw [hm] at h
      dsimp only at h
      cases hr : stofAll rest with
      | error e => rw [hr] at h; simp at h
      | ok vs0 =>
        rw [hr] at h
        dsimp only at h
        cases h
        have hv : v = tokenVal t := by
          unfold stofModel at hm
          split at hm
          · simp at hm
          · split at hm
            · simp at hm
            · cases hm
              rfl
        rw [hv, ih hr, List.map_cons]

theorem parse_nil_of_noToken {s : List Char} (h : scanTokens s = []) :
    parse_input_json s = Except.ok [] := by
  have hnd := (scanTokens_nil_iff s).mp h
  unfold parse_input_json extractedTokens
  cases hf : featuresSearch s with
  | none =>
    dsimp only
    rw [h]
    rfl
  | some inner =>
    dsimp only
    rcases featuresSearch_decomp hf with ⟨p, q, hs⟩
    have hin : ∀ c ∈ inner, isDigitCh c = false := by
      intro c hc
      exact hnd c (by rw [hs]; simp [hc])
    rw [(scanTokens_nil_iff inner).mpr hin]
    rfl

theorem valsAux_false_eq (v : ℚ) (rest : List ℚ) :
    valsAux false (v :: rest) = "," ++ valsAux true (v :: rest) := by
  show "," ++ formatFixed6 v ++ valsAux false rest
      = "," ++ ("" ++ formatFixed6 v ++ valsAux false rest)
  rw [String.empty_append, String.append_assoc]

theorem valsAux_true_join : ∀ vs : List ℚ,
    valsAux true vs = joinComma (vs.map formatFixed6) := by
  intro vs
  induction vs with
  | nil => rfl
  | cons v rest ih =>
    cases rest with
    | nil =>
      show "" ++ formatFixed6 v ++ valsAux false [] = formatFixed6 v
      rw [String.empty_append]
      exact String.append_empty _
    | cons w ws =>
      have h1 : valsAux true (v :: w :: ws)
          = "" ++ formatFixed6 v ++ valsAux false (w :: ws) := rfl
      rw [h1, valsAux_false_eq, ih, String.empty_append, ← String.append_assoc]
      rfl

theorem joinComma_cons2 (a b : String) (l : List String) :
    joinComma (a :: b :: l) = a ++ "," ++ joinComma (b :: l) := rfl

theorem outputs_aux_false_eq (kv : String × List ℚ) (rest : List (String × List ℚ)) :
    outputs_to_json_aux false (kv :: rest) = "," ++ outputs_to_json_aux true (kv :: rest) := by
  show "," ++ "\"" ++ kv.1 ++ "\":[" ++ valsAux true kv.2 ++ "]" ++ outputs_to_json_aux false rest
      = "," ++ ("" ++ "\"" ++ kv.1 ++ "\":[" ++ valsAux true kv.2 ++ "]" ++ outputs_to_json_aux false rest)
  simp only [String.empty_append, String.append_assoc]

theorem outputs_aux_true_join : ∀ l : List (String × List ℚ),
    outputs_to_json_aux true l
      = joinComma (l.map (fun kv =>
          "\"" ++ kv.1 ++ "\":[" ++ joinComma (kv.2.map formatFixed6) ++ "]")) := by
  intro l
  induction l with
  | nil => rfl
  | cons kv rest ih =>
    cases rest with
    | nil =>
      show "" ++ "\"" ++ kv.1 ++ "\":[" ++ valsAux true kv.2 ++ "]" ++ outputs_to_json_aux false []
          = "\"" ++ kv.1 ++ "\":[" ++ joinComma (kv.2.map formatFixed6) ++ "]"
      rw [valsAux_true_join]
      show "" ++ "\"" ++ kv.1 ++ "\":[" ++ joinComma (kv.2.map formatFixed6) ++ "]" ++ "" = _
      rw [String.append_empty, String.empty_append]
    | cons kw kws =>
      have h1 : outputs_to_json_aux true (kv :: kw :: kws)
          = "" ++ "\"" ++ kv.1 ++ "\":[" ++ valsAux true kv.2 ++ "]"
              ++ outputs_to_json_aux false (kw :: kws) := rfl
      rw [h1, outputs_aux_false_eq, ih, valsAux_true_join, String.empty_append]
      simp only [List.map_cons]
      rw [joinComma_cons2, ← String.append_assoc]

theorem outputs_to_json_eq_spec (out : List (String × List ℚ)) :
    outputs_to_json out = encodeSpec out := by
  unfold outputs_to_json encodeSpec
  rw [outputs_aux_true_join]

theorem isPrefixB_append_self : ∀ (p t : List Char), isPrefixB p (p ++ t) = true := by
  intro p
  induction p with
  | nil => intro t; rfl
  | cons a as ih =>
    intro t
    simp only [List.cons_append, isPrefixB, BEq.refl, Bool.true_and]
    exact ih t

theorem dropSpaces_spaces_append {ws : List Char} (x : List Char)
    (h : ∀ c ∈ ws, isSpaceCh c = true) : dropSpaces (ws ++ x) = dropSpaces x := by
  induction ws with
  | nil => rfl
  | cons c rest ih =>
    simp only [List.cons_append, dropSpaces, h c (by simp), if_true]
    exact ih (fun d hd => h d (by simp [hd]))

theorem dropSpaces_cons_not {c : Char} (x : List Char) (h : isSpaceCh c = false) :
    dropSpaces (c :: x) = c :: x := by
  simp [dropSpaces, h]

theorem stopped_loop_invariant : ∀ (evs : List LoopEvent) (s : LoopState),
    s.running = false →
    (runLoop s evs).running = false ∧
    (runLoop s evs).dispatched + dispatchSlack (runLoop s evs)
      ≤ s.dispatched + dispatchSlack s := by
  intro evs
  induction evs with
  | nil => exact fun s h => ⟨h, Nat.le_refl _⟩
  | cons e rest ih =>
    intro s h
    have hstep : (loopStep s e).running = false ∧
        (loopStep s e).dispatched + dispatchSlack (loopStep s e)
          ≤ s.dispatched + dispatchSlack s := by
      cases e with
      | stopReq => simp [loopStep, dispatchSlack]
      | proceed => cases hp : s.phase <;> simp [loopStep, hp, h, dispatchSlack]
      | acceptOk => cases hp : s.phase <;> simp [loopStep, hp, h, dispatchSlack]
      | acceptFail => cases hp : s.phase <;> simp [loopStep, hp, h, dispatchSlack]
    have hr := ih (loopStep s e) hstep.1
    exact ⟨hr.1, le_trans hr.2 hstep.2⟩

/-- C1: whenever the decoded feature vector does not have the width the
engine expects, process_inference produces the size-mismatch error
naming the expected and the actual counts, the handler turns it into
the error body, and the result is the same for every engine - the
engine is never consulted on such a request. -/
theorem C1_width_mismatch (expected : Nat) (engine engine2 : EngineFun)
    (payload : List Char) (input : List ℚ)
    (hp : parse_input_json payload = Except.ok input)
    (hlen : input.length ≠ expected) :
    process_inference expected engine input
        = Except.error ("Input size mismatch. Expected " ++ toString expected
            ++ " but got " ++ toString input.length) ∧
    process_inference expected engine input = process_inference expected engine2 input ∧
    response_body expected engine payload
        = errorBody ("Input size mismatch. Expected " ++ toString expected
            ++ " but got " ++ toString input.length) := by
  have h1 : process_inference expected engine input
      = Except.error ("Input size mismatch. Expected " ++ toString expected
          ++ " but got " ++ toString input.length) := by
    unfold process_inference
    rw [if_pos hlen]
  have h2 : process_inference expected engine2 input
      = Except.error ("Input size mismatch. Expected " ++ toString expected
          ++ " but got " ++ toString input.length) := by
    unfold process_inference
    rw [if_pos hlen]
  refine ⟨h1, h1.trans h2.symm, ?_⟩
  unfold response_body handle_response
  rw [hp]
  dsimp only
  rw [h1]

/-- C1 witness: concrete scenario 2, expected width 3 and payload with
two features, checked end to end on the handler body. -/
theorem C1_witness :
    parse_input_json ("\x7b\"features\": [1.0,2.0]\x7d".toList) = Except.ok [1, 2] ∧
    ([1, 2] : List ℚ).length ≠ 3 ∧
    response_body 3 engZero ("\x7b\"features\": [1.0,2.0]\x7d".toList)
      = "\x7b\"error\": \"Input size mismatch. Expected 3 but got 2\"\x7d" := by
  refine ⟨by rfl, by decide, ?_⟩
  have h := C1_width_mismatch 3 engZero engScore ("\x7b\"features\": [1.0,2.0]\x7d".toList)
    [1, 2] (by rfl) (by decide)
  exact h.2.2.trans (by rfl)

/-- C2: decode is the two-branch token extraction - the tokens inside
the features list when the features regex matches (the match is a
contiguous piece of the payload), all tokens of the payload otherwise;
the scan places its tokens disjointly in left-to-right order of
appearance, each token is a match of the numeric token regex at its
position, and the successful parse maps them to values in that same
order. -/
theorem C2_decode_branches (s : List Char) :
    (featuresSearch s = none → extractedTokens s = scanTokens s) ∧
    (∀ inner, featuresSearch s = some inner →
        extractedTokens s = scanTokens inner ∧ ∃ p q, s = p ++ inner ++ q) ∧
    InOrder s (scanTokens s) ∧
    (∀ inner, featuresSearch s = some inner → InOrder inner (scanTokens inner)) ∧
    (∀ t ∈ extractedTokens s, ∃ u, matchNumber (t ++ u) = some (t, u)) ∧
    (∀ vs, parse_input_json s = Except.ok vs → vs = (extractedTokens s).map tokenVal) := by
  refine ⟨?_, ?_, scanTokens_inOrder s, ?_, ?_, ?_⟩
  · intro h
    unfold extractedTokens
    rw [h]
  · intro inner h
    refine ⟨?_, featuresSearch_decomp h⟩
    unfold extractedTokens
    rw [h]
  · intro inner _
    exact scanTokens_inOrder inner
  · intro t ht
    unfold extractedTokens at ht
    cases hf : featuresSearch s with
    | some inner =>
      rw [hf] at ht
      dsimp only at ht
      exact scanTokens_matched t ht
    | none =>
      rw [hf] at ht
      dsimp only at ht
      exact scanTokens_matched t ht
  · intro vs h
    exact stofAll_ok_val h

/-- C2 witness: the features branch on concrete scenario 2 input, with
the captured list content and the decoded values in token order. -/
theorem C2_witness :
    featuresSearch ("\x7b\"features\": [1.0,2.0]\x7d".toList) = some ("1.0,2.0".toList) ∧
    extractedTokens ("\x7b\"features\": [1.0,2.0]\x7d".toList) = scanTokens ("1.0,2.0".toList) ∧
    ([1, 2] : List ℚ)
      = (extractedTokens ("\x7b\"features\": [1.0,2.0]\x7d".toList)).map tokenVal := by
  refine ⟨by rfl, ?_, ?_⟩
  · exact ((C2_decode_branches ("\x7b\"features\": [1.0,2.0]\x7d".toList)).2.1
      ("1.0,2.0".toList) (by rfl)).1
  · exact (C2_decode_branches ("\x7b\"features\": [1.0,2.0]\x7d".toList)).2.2.2.2.2
      [1, 2] (by rfl)

/-- C3 counterexample: the claim that no connection is ever dispatched
after stop() fails on the code.  From the start of the loop, the loop
enters accept, stop() is called (the flag is now down, nothing has been
dispatched), and a connection then arriving is still handed to a
handler thread: the body dispatches unconditionally once accept
returns. -/
theorem C3_counterexample :
    (runLoop loopInit [LoopEvent.proceed, LoopEvent.stopReq]).running = false ∧
    (runLoop loopInit [LoopEvent.proceed, LoopEvent.stopReq]).dispatched = 0 ∧
    (runLoop loopInit [LoopEvent.proceed, LoopEvent.stopReq, LoopEvent.acceptOk]).dispatched = 1 :=
  ⟨rfl, rfl, rfl⟩

/-- C3 (amended): after stop() the flag stays down and at most one
further connection can be dispatched - exactly the one a blocked
accept may still return; once the loop reaches the while condition it
exits, and there is no accept timeout forcing that to happen.  The
bound is phrased with dispatchSlack: one when the loop sits inside
accept, zero otherwise. -/
theorem C3_stop_amended (s : LoopState) (evs : List LoopEvent)
    (h : s.running = false) :
    (runLoop s evs).running = false ∧
    (runLoop s evs).dispatched + dispatchSlack (runLoop s evs)
      ≤ s.dispatched + dispatchSlack s ∧
    (s.phase = LoopPhase.atCheck → (loopStep s LoopEvent.proceed).phase = LoopPhase.exited) := by
  refine ⟨(stopped_loop_invariant evs s h).1, (stopped_loop_invariant evs s h).2, ?_⟩
  intro hp
  simp [loopStep, hp, h]

/-- C3 witness: a stopped state blocked in accept dispatches at most
the one pending connection over a concrete event run. -/
theorem C3_witness :
    ({ running := false, phase := LoopPhase.inAccept, dispatched := 0 } : LoopState).running
      = false ∧
    (runLoop { running := false, phase := LoopPhase.inAccept, dispatched := 0 }
        [LoopEvent.acceptOk, LoopEvent.proceed]).running = false ∧
    (runLoop { running := false, phase := LoopPhase.inAccept, dispatched := 0 }
          [LoopEvent.acceptOk, LoopEvent.proceed]).dispatched
        + dispatchSlack (runLoop { running := false, phase := LoopPhase.inAccept, dispatched := 0 }
          [LoopEvent.acceptOk, LoopEvent.proceed])
      ≤ ({ running := false, phase := LoopPhase.inAccept, dispatched := 0 } : LoopState).dispatched
        + dispatchSlack { running := false, phase := LoopPhase.inAccept, dispatched := 0 } := by
  have h := C3_stop_amended { running := false, phase := LoopPhase.inAccept, dispatched := 0 }
    [LoopEvent.acceptOk, LoopEvent.proceed] rfl
  exact ⟨rfl, h.1, h.2.1⟩

/-- C4 counterexample: with valid arguments, a loaded model and a
failing bind, run() reports the bind error and returns, and main then
returns 0 - the process exit status is zero, not non-zero as claimed. -/
theorem C4_counterexample :
    runStartup true false true
      = { outcome := RunOutcome.bindError, errLog := ["Error binding socket"] } ∧
    mainExitCode true true true true false true = 0 :=
  ⟨rfl, rfl⟩

/-- C4 (amended): when bind fails the failure is reported on stderr and
the server does not start - run() returns before the accept loop - but
the process exit status is 0: run() returns void, main() never inspects
the failure and falls through to return 0. -/
theorem C4_bind_amended (listen_ok init_ok : Bool) (hinit : init_ok = true) :
    runStartup true false listen_ok
      = { outcome := RunOutcome.bindError, errLog := ["Error binding socket"] } ∧
    (runStartup true false listen_ok).outcome ≠ RunOutcome.loopEntered ∧
    mainExitCode true true init_ok true false listen_ok = 0 := by
  subst hinit
  exact ⟨rfl, by simp [runStartup], rfl⟩

/-- C4 witness: the amended statement at a concrete configuration. -/
theorem C4_witness :
    runStartup true false true
      = { outcome := RunOutcome.bindError, errLog := ["Error binding socket"] } ∧
    mainExitCode true true true true false true = 0 := by
  have h := C4_bind_amended true true rfl
  exact ⟨h.1, h.2.2⟩

/-- C5 counterexample: the error-path response carries no permissive
cross-origin header.  The empty-object payload with expected width 3
takes the 500 path, and the response written back does not contain the
Access-Control-Allow-Origin header the claim requires of every
response. -/
theorem C5_counterexample :
    handle_client 3 engZero ("\x7b\x7d".toList)
      = some ("HTTP/1.1 500 Internal Server Error\r\nContent-Type: application/json\r\nContent-Length: 54\r\n\r\n\x7b\"error\": \"Input size mismatch. Expected 3 but got 0\"\x7d") ∧
    hasSubstrB ("Access-Control-Allow-Origin".toList)
      ("HTTP/1.1 500 Internal Server Error\r\nContent-Type: application/json\r\nContent-Length: 54\r\n\r\n\x7b\"error\": \"Input size mismatch. Expected 3 but got 0\"\x7d".toList)
      = false :=
  ⟨rfl, rfl⟩

/-- C5 (amended): every response the handler writes has one of exactly
two shapes: the 200 response with status line, Content-Type,
Content-Length, the cross-origin header, a blank line and the body, or
the 500 response with status line, Content-Type, Content-Length, a
blank line and the body - the error path omits the cross-origin
header. -/
theorem C5_response_amended (expected : Nat) (engine : EngineFun) (request : List Char)
    (resp : String) (h : handle_client expected engine request = some resp) :
    ∃ body : String,
      resp = "HTTP/1.1 200 OK\r\n" ++ "Content-Type: application/json\r\n"
          ++ ("Content-Length: " ++ toString body.length ++ "\r\n")
          ++ "Access-Control-Allow-Origin: *\r\n" ++ "\r\n" ++ body
      ∨ resp = "HTTP/1.1 500 Internal Server Error\r\n" ++ "Content-Type: application/json\r\n"
          ++ ("Content-Length: " ++ toString body.length ++ "\r\n") ++ "\r\n" ++ body := by
  unfold handle_client at h
  split at h
  · simp at h
  · split at h
    next r heq =>
      cases h
      exact ⟨r, Or.inl rfl⟩
    next msg heq =>
      cases h
      exact ⟨errorBody msg, Or.inr rfl⟩

/-- C5 witness: the amended statement instantiated on the concrete 500
response of the empty-object payload. -/
theorem C5_witness :
    handle_client 3 engZero ("\x7b\x7d".toList)
      = some (http_err (errorBody "Input size mismatch. Expected 3 but got 0")) ∧
    ∃ body : String,
      http_err (errorBody "Input size mismatch. Expected 3 but got 0")
        = "HTTP/1.1 200 OK\r\n" ++ "Content-Type: application/json\r\n"
            ++ ("Content-Length: " ++ toString body.length ++ "\r\n")
            ++ "Access-Control-Allow-Origin: *\r\n" ++ "\r\n" ++ body
      ∨ http_err (errorBody "Input size mismatch. Expected 3 but got 0")
        = "HTTP/1.1 500 Internal Server Error\r\n" ++ "Content-Type: application/json\r\n"
            ++ ("Content-Length: " ++ toString body.length ++ "\r\n") ++ "\r\n" ++ body :=
  ⟨by rfl, C5_response_amended 3 engZero ("\x7b\x7d".toList)
    (http_err (errorBody "Input size mismatch. Expected 3 but got 0")) (by rfl)⟩

/-- C6: encoding a prediction result renders the outputs as a JSON
object in the order received, each value a bracketed comma-separated
list with fixed six-digit numbers - the first-flag loop of the source
equals the comma-join encoder stated from the spec - and the concrete
scenario 1 result encodes to the expected body. -/
theorem C6_encode (out : List (String × List ℚ)) :
    outputs_to_json out = encodeSpec out ∧
    outputs_to_json [("score", [mkRat 21 50])] = "\x7b\"score\":[0.420000]\x7d" :=
  ⟨outputs_to_json_eq_spec out, by rfl⟩

/-- C7: a payload without numeric tokens decodes successfully to the
empty feature vector - no decode error - and is then rejected by the
width check alone: with expected width 3 the handler body is the
mismatch error naming 3 and 0. -/
theorem C7_no_tokens (s : List Char) (engine : EngineFun)
    (h : scanTokens s = []) :
    parse_input_json s = Except.ok [] ∧
    response_body 3 engine s
      = errorBody ("Input size mismatch. Expected " ++ toString 3 ++ " but got " ++ toString 0) := by
  have hp := parse_nil_of_noToken h
  refine ⟨hp, ?_⟩
  unfold response_body handle_response
  rw [hp]
  dsimp only
  unfold process_inference
  rw [if_pos (by decide : ([] : List ℚ).length ≠ 3)]
  rfl

/-- C7 witness: concrete scenario 3, the empty object. -/
theorem C7_witness :
    scanTokens ("\x7b\x7d".toList) = [] ∧
    parse_input_json ("\x7b\x7d".toList) = Except.ok [] ∧
    response_body 3 engZero ("\x7b\x7d".toList)
      = "\x7b\"error\": \"Input size mismatch. Expected 3 but got 0\"\x7d" :=
  ⟨by rfl, (C7_no_tokens ("\x7b\x7d".toList) engZero (by rfl)).1,
    ((C7_no_tokens ("\x7b\x7d".toList) engZero (by rfl)).2).trans (by rfl)⟩

/-- C8 counterexample: a payload bearing a numeric token can still make
decode raise, at either end of the binary32 range.  The token 1e39 is
matched by the numeric token regex but its value exceeds the largest
finite binary32 value, and the token 1e-50 is matched but its nonzero
value underflows binary32 (glibc strtof sets ERANGE for both); stof
throws out_of_range and parse_input_json fails instead of returning a
feature vector. -/
theorem C8_counterexample :
    scanTokens ("[1e39]".toList) = ["1e39".toList] ∧
    parse_input_json ("[1e39]".toList) = Except.error "stof" ∧
    scanTokens ("[1e-50]".toList) = ["1e-50".toList] ∧
    parse_input_json ("[1e-50]".toList) = Except.error "stof" :=
  ⟨rfl, rfl, rfl, rfl⟩

/-- C8 (amended): decode never raises for any payload - however
malformed its structure - provided every matched token is zero or has
magnitude within the binary32 range: below the overflow bound
2 ^ 128 - 2 ^ 103 and at least the underflow bound
2 ^ (-126) - 2 ^ (-150); it then returns exactly the token values in
order.  A matched token beyond either bound makes stof throw
out_of_range, which decode propagates. -/
theorem C8_inRange_amended (s : List Char)
    (h : ∀ t ∈ extractedTokens s, ratAbs (tokenVal t) < floatOverflowBound ∧
        (tokenVal t = 0 ∨ floatUnderflowBound ≤ ratAbs (tokenVal t))) :
    parse_input_json s = Except.ok ((extractedTokens s).map tokenVal) :=
  stofAll_ok_of_bounded h

/-- C8 witness: a structurally malformed payload with stray text and an
unterminated brace still decodes to its in-range numeric tokens. -/
theorem C8_witness :
    (∀ t ∈ extractedTokens ("\x7bmalformed [1.5, 2\x7d".toList),
        ratAbs (tokenVal t) < floatOverflowBound ∧
          (tokenVal t = 0 ∨ floatUnderflowBound ≤ ratAbs (tokenVal t))) ∧
    parse_input_json ("\x7bmalformed [1.5, 2\x7d".toList)
      = Except.ok ((extractedTokens ("\x7bmalformed [1.5, 2\x7d".toList)).map tokenVal) :=
  ⟨by decide, C8_inRange_amended ("\x7bmalformed [1.5, 2\x7d".toList) (by decide)⟩

/-- C9: over every sequence of ModelLoader operations after
construction - load attempts succeeding or failing, predict calls -
get_input_size returns the constant 16 fixed by the constructor; no
operation derives it from the loaded artifact or updates it. -/
theorem C9_input_size (path : String) (ops : List MLOp) :
    get_input_size (ops.foldl ModelLoader.step (ModelLoader.construct path)) = 16 := by
  have key : ∀ (l : List MLOp) (m : ModelLoader),
      (l.foldl ModelLoader.step m).input_size = m.input_size := by
    intro l
    induction l with
    | nil => intro m; rfl
    | cons op rest ih =>
      intro m
      have hstep : (ModelLoader.step m op).input_size = m.input_size := by
        cases op with
        | load ok => cases ok <;> rfl
        | predict => rfl
      calc (List.foldl ModelLoader.step m (op :: rest)).input_size
          = (rest.foldl ModelLoader.step (ModelLoader.step m op)).input_size := rfl
        _ = (ModelLoader.step m op).input_size := ih _
        _ = m.input_size := hstep
  exact key ops (ModelLoader.construct path)

/-- C10: a features field followed by an empty bracketed list is not
matched by the features regex - its capture group needs at least one
character - for any surrounding whitespace and trailing text; when the
search fails decode falls through to the whole-payload scan, and on
the concrete payload with an empty features list and another numeric
field the decoded vector is that other number, not the empty vector. -/
theorem C10_empty_features (ws1 ws2 rest : List Char)
    (h1 : ∀ c ∈ ws1, isSpaceCh c = true) (h2 : ∀ c ∈ ws2, isSpaceCh c = true) :
    matchFeaturesAt (featLit ++ ws1 ++ ':' :: (ws2 ++ '[' :: ']' :: rest)) = none ∧
    (∀ s : List Char, featuresSearch s = none → extractedTokens s = scanTokens s) ∧
    featuresSearch ("\x7b\"features\": [], \"id\": 7\x7d".toList) = none ∧
    parse_input_json ("\x7b\"features\": [], \"id\": 7\x7d".toList) = Except.ok [7] := by
  refine ⟨?_, ?_, by rfl, by rfl⟩
  · unfold matchFeaturesAt
    have hassoc : featLit ++ ws1 ++ ':' :: (ws2 ++ '[' :: ']' :: rest)
        = featLit ++ (ws1 ++ ':' :: (ws2 ++ '[' :: ']' :: rest)) := by
      simp [List.append_assoc]
    rw [hassoc, if_pos (isPrefixB_append_self featLit _)]
    have hdrop : (featLit ++ (ws1 ++ ':' :: (ws2 ++ '[' :: ']' :: rest))).drop 10
        = ws1 ++ ':' :: (ws2 ++ '[' :: ']' :: rest) :=
      List.drop_left featLit _
    rw [hdrop, dropSpaces_spaces_append _ h1,
      dropSpaces_cons_not _ (by decide : isSpaceCh ':' = false)]
    show (match dropSpaces (ws2 ++ '[' :: ']' :: rest) with
        | '[' :: r4 =>
          match List.dropWhile (fun c => !(c == ']')) r4 with
          | ']' :: _ =>
            if (List.takeWhile (fun c => !(c == ']')) r4).isEmpty = true then none
            else some (List.takeWhile (fun c => !(c == ']')) r4)
          | _ => none
        | _ => none) = none
    rw [dropSpaces_spaces_append _ h2,
      dropSpaces_cons_not _ (by decide : isSpaceCh '[' = false)]
    rfl
  · intro s h
    unfold extractedTokens
    rw [h]

/-- C10 witness: the general empty-list failure instantiated at the
concrete whitespace of the payload, together with the concrete decode
result. -/
theorem C10_witness :
    matchFeaturesAt (featLit ++ [] ++ ':' :: ([' '] ++ '[' :: ']' :: (", \"id\": 7\x7d".toList))) = none ∧
    parse_input_json ("\x7b\"features\": [], \"id\": 7\x7d".toList) = Except.ok [7] := by
  have h := C10_empty_features [] [' '] (", \"id\": 7\x7d".toList) (by simp) (by decide)
  exact ⟨h.1, h.2.2.2⟩
